import Mathlib

/-!
# Verification of the Itinerary trip/trip-item persistence layer

Shallow embedding of the local persistence layer of the Itinerary web
application and proofs about it.  The embedded code is:

* `LocalStorageService` from `src/auth.js` (the localStorage-backed mock of
  the REST API): `createTrip`, `updateTrip`, `deleteTrip`, `getTripItems`,
  `createTripItem`, `updateTripItem`, `deleteTripItem`;
* `StorageManager` from `src/storage.js`: `addTrip`, `updateTrip`,
  `deleteTrip`;
* `TripManager` from `src/storage.js`: `validateTripData`, `createTrip`,
  `sortTripItems`, `reorderTripItems`.

Modelling conventions:

* JavaScript objects become structures whose optional keys are `Option`
  fields (`none` = key absent / `undefined`).
* Object spread merges (`{...old, ...patch, f: v}`) become field-wise
  merges: a patch field `some v` overrides, `none` keeps the old value,
  and fields written after the spread override unconditionally.
* `new Date().toISOString()` timestamps become a `Nat` clock carried in
  the state; ISO-8601 strings compare lexicographically exactly as the
  instants they denote compare, so `Nat` is a faithful abstraction.
* `generateId()` (`Date.now().toString(36) + Math.random()...`) becomes a
  fresh counter carried in the state; the generated value is the counter,
  which is consumed whenever the code calls `generateId()`.
* `Array.prototype.sort(cmp)` is a stable sort (ES2019); it is embedded as
  the structural stable insertion sort `sortStable` below, with the
  boolean relation `le a b` standing for `cmp(a,b) <= 0`.
* `Array.prototype.findIndex` followed by an assignment to the found slot
  is embedded as `updateFirst`, which rewrites the first matching element
  of a list and keeps everything else.
-/

namespace Itinerary

/-! ## Generic list operations used by the embedding -/

/-- Rewrite the first element satisfying `p` using `f`; leave the rest of
the list unchanged.  This is `arr[arr.findIndex(p)] = f(...)` on a JS
array (a no-op when `findIndex` returns `-1`). -/
def updateFirst (p : α → Bool) (f : α → α) : List α → List α
  | [] => []
  | x :: xs => if p x then f x :: xs else x :: updateFirst p f xs

/-- Insert `x` into `ys` in front of the first element `y` with
`le x y`.  When `ys` is sorted and `x` stood before every element of `ys`
in the original list, this placement is exactly what a stable sort does
with `x`. -/
def insertStable (le : α → α → Bool) (x : α) : List α → List α
  | [] => [x]
  | y :: ys => if le x y then x :: y :: ys else y :: insertStable le x ys

/-- Stable insertion sort: the embedding of `Array.prototype.sort(cmp)`
(stable per the ECMAScript specification) with `le a b = (cmp a b <= 0)`. -/
def sortStable (le : α → α → Bool) : List α → List α
  | [] => []
  | x :: xs => insertStable le x (sortStable le xs)

/-! ## Data model

Records as stored by `LocalStorageService` (`src/auth.js`).  Keys the code
may leave absent are `Option` fields.  Timestamps and ids are `Nat`
(see the header comment). -/

/-- A date-valued form field as JavaScript sees it: absent or empty
(falsy), present but not parseable by `new Date`, or a valid instant. -/
inductive JsDate where
  | missing : JsDate
  | invalid : JsDate
  | valid : Nat → JsDate
deriving DecidableEq

/-- A Trip record in the `travel_planner_trips` collection
(`LocalStorageService.createTrip` builds
`{id, ...tripData, items: [], created_at, updated_at}`). -/
structure LSTrip where
  id : Nat
  title : Option String
  description : Option String
  start_date : JsDate
  end_date : JsDate
  status : Option String
  items : List Nat
  created_at : Nat
  updated_at : Nat
deriving DecidableEq

/-- A TripItem record in the `travel_planner_trip_items` collection. -/
structure LSItem where
  id : Nat
  trip_id : Nat
  title : Option String
  start_datetime : Nat
  end_datetime : Option Nat
  sort_order : Option Nat
  created_at : Nat
  updated_at : Nat
deriving DecidableEq

/-- A trip draft as passed to `createTrip` — an arbitrary caller object,
so every key is optional, including `id`. -/
structure TripDraft where
  id : Option Nat := none
  title : Option String := none
  description : Option String := none
  start_date : JsDate := JsDate.missing
  end_date : JsDate := JsDate.missing
  status : Option String := none
deriving DecidableEq

/-- A partial update object as passed to `updateTrip`: `some v` means the
key is present with value `v`, `none` that it is absent.  `{}` in the
code is the patch with every field `none` (the defaults below). -/
structure TripPatch where
  id : Option Nat := none
  title : Option String := none
  description : Option String := none
  start_date : Option JsDate := none
  end_date : Option JsDate := none
  status : Option String := none
  created_at : Option Nat := none
deriving DecidableEq

/-- An item draft as passed to `createTripItem`. -/
structure ItemDraft where
  id : Option Nat := none
  trip_id : Nat
  title : Option String := none
  start_datetime : Nat
  end_datetime : Option Nat := none
  sort_order : Option Nat := none
deriving DecidableEq

/-- A partial update object as passed to `updateTripItem`. -/
structure ItemPatch where
  id : Option Nat := none
  trip_id : Option Nat := none
  title : Option String := none
  start_datetime : Option Nat := none
  end_datetime : Option Nat := none
  sort_order : Option Nat := none
  created_at : Option Nat := none
deriving DecidableEq

/-- The persisted state of `LocalStorageService`: the two collections,
plus the model clock (`new Date()`) and the id generator. -/
structure LSState where
  trips : List LSTrip
  tripItems : List LSItem
  now : Nat
  fresh : Nat
deriving DecidableEq

/-- Keep an `Option` field when the patch key is absent, override it when
present — one key of `{...old, ...patch}`. -/
def patchField : Option α → Option α → Option α
  | some v, _ => some v
  | none, old => old

/-- The merge `{...trip, ...patch, updated_at: now}` from
`LocalStorageService.updateTrip`: every key of `patch` overrides
(including `id` and `created_at` — the code reassigns only
`updated_at` after the spread). -/
def mergeTrip (t : LSTrip) (p : TripPatch) (now : Nat) : LSTrip where
  id := p.id.getD t.id
  title := patchField p.title t.title
  description := patchField p.description t.description
  start_date := (p.start_date).getD t.start_date
  end_date := (p.end_date).getD t.end_date
  status := patchField p.status t.status
  items := t.items
  created_at := p.created_at.getD t.created_at
  updated_at := now

/-- The merge `{...item, ...patch, updated_at: now}` from
`LocalStorageService.updateTripItem`. -/
def mergeItem (it : LSItem) (p : ItemPatch) (now : Nat) : LSItem where
  id := p.id.getD it.id
  trip_id := p.trip_id.getD it.trip_id
  title := patchField p.title it.title
  start_datetime := p.start_datetime.getD it.start_datetime
  end_datetime := patchField p.end_datetime it.end_datetime
  sort_order := patchField p.sort_order it.sort_order
  created_at := p.created_at.getD it.created_at
  updated_at := now

namespace LocalStorageService

/-- The lookup `trips.find(t => t.id === id)` — the record a subsequent read
observes for a given id. -/
def lookupTrip (s : LSState) (id : Nat) : Option LSTrip :=
  s.trips.find? (fun t => t.id == id)

/-- The lookup `tripItems.find(item => item.id === id)`. -/
def lookupItem (s : LSState) (id : Nat) : Option LSItem :=
  s.tripItems.find? (fun it => it.id == id)

/-- Embedding of `LocalStorageService.createTrip` (`src/auth.js`): builds
`{id: generateId(), ...tripData, items: [], created_at: now,
updated_at: now}` and pushes it.  `generateId()` is evaluated first, so
the fresh counter is consumed even when `tripData.id` overrides it. -/
def createTrip (s : LSState) (d : TripDraft) : LSTrip × LSState :=
  let newTrip : LSTrip :=
    { id := d.id.getD s.fresh
      title := d.title
      description := d.description
      start_date := d.start_date
      end_date := d.end_date
      status := d.status
      items := []
      created_at := s.now
      updated_at := s.now }
  (newTrip, { s with trips := s.trips ++ [newTrip], fresh := s.fresh + 1 })

/-- Embedding of `LocalStorageService.updateTrip` (`src/auth.js`): `findIndex` on the
id; when found, replace that slot with `{...old, ...updateData,
updated_at: now}` and return it, otherwise return `null` and leave the
store untouched. -/
def updateTrip (s : LSState) (id : Nat) (p : TripPatch) :
    Option LSTrip × LSState :=
  match s.trips.find? (fun t => t.id == id) with
  | some t =>
      let newTrips :=
        updateFirst (fun x => x.id == id) (fun x => mergeTrip x p s.now)
          s.trips
      (some (mergeTrip t p s.now), { s with trips := newTrips })
  | none => (none, s)

/-- Embedding of `LocalStorageService.deleteTrip` (`src/auth.js`): filter the trip
out; when something was removed, also filter out every item whose
`trip_id` matches and return `true`, otherwise return `false`. -/
def deleteTrip (s : LSState) (id : Nat) : Bool × LSState :=
  let filteredTrips := s.trips.filter (fun t => t.id != id)
  if filteredTrips.length ≠ s.trips.length then
    (true,
     { s with trips := filteredTrips,
              tripItems := s.tripItems.filter (fun it => it.trip_id != id) })
  else (false, s)

/-- Embedding of `LocalStorageService.getTripItems` (`src/auth.js`): filter by
`trip_id`, then a stable sort by
`new Date(a.start_datetime) - new Date(b.start_datetime)`. -/
def getTripItems (s : LSState) (tripId : Nat) : List LSItem :=
  sortStable (fun a b => decide (a.start_datetime ≤ b.start_datetime))
    (s.tripItems.filter (fun it => it.trip_id == tripId))

/-- Embedding of `LocalStorageService.createTripItem` (`src/auth.js`): push
`{id: generateId(), ...itemData, created_at, updated_at}` without any
check on `itemData.trip_id`, then `updateTrip(itemData.trip_id, {})` to
touch the parent (a no-op when the parent does not exist). -/
def createTripItem (s : LSState) (d : ItemDraft) : LSItem × LSState :=
  let newItem : LSItem :=
    { id := d.id.getD s.fresh
      trip_id := d.trip_id
      title := d.title
      start_datetime := d.start_datetime
      end_datetime := d.end_datetime
      sort_order := d.sort_order
      created_at := s.now
      updated_at := s.now }
  let s₁ := { s with tripItems := s.tripItems ++ [newItem],
                     fresh := s.fresh + 1 }
  (newItem, (updateTrip s₁ d.trip_id {}).2)

/-- Embedding of `LocalStorageService.updateTripItem` (`src/auth.js`): merge the patch
onto the first item with this id, then touch the parent trip recorded in
the merged item's `trip_id`. -/
def updateTripItem (s : LSState) (id : Nat) (p : ItemPatch) :
    Option LSItem × LSState :=
  match s.tripItems.find? (fun it => it.id == id) with
  | some it =>
      let merged := mergeItem it p s.now
      let newItems :=
        updateFirst (fun x => x.id == id) (fun _ => merged) s.tripItems
      let s₁ := { s with tripItems := newItems }
      (some merged, (updateTrip s₁ merged.trip_id {}).2)
  | none => (none, s)

/-- Embedding of `LocalStorageService.deleteTripItem` (`src/auth.js`): when an item
with this id exists, filter it out and touch its parent trip. -/
def deleteTripItem (s : LSState) (id : Nat) : Bool × LSState :=
  match s.tripItems.find? (fun it => it.id == id) with
  | some it =>
      let s₁ := { s with tripItems :=
        s.tripItems.filter (fun x => x.id != id) }
      (true, (updateTrip s₁ it.trip_id {}).2)
  | none => (false, s)

end LocalStorageService

/-! ## `StorageManager` (`src/storage.js`)

The second, field-explicit persistence layer.  Its trip records always
carry every field (`tripData.title || ''` and so on), so the structure
has no `Option` string fields. -/

/-- A trip record as `StorageManager.addTrip` builds it. -/
structure SMTrip where
  id : Nat
  title : String
  destination : String
  startDate : String
  endDate : String
  status : String
  description : String
  coordinates : Option (Int × Int)
  createdAt : Nat
  updatedAt : Nat
deriving DecidableEq

/-- A caller-supplied draft for `StorageManager.addTrip`; an arbitrary
object, so every key (including `id`) is optional. -/
structure SMDraft where
  id : Option Nat := none
  title : Option String := none
  destination : Option String := none
  startDate : Option String := none
  endDate : Option String := none
  status : Option String := none
  description : Option String := none
  coordinates : Option (Int × Int) := none
deriving DecidableEq

/-- A partial update object for `StorageManager.updateTrip`. -/
structure SMPatch where
  id : Option Nat := none
  title : Option String := none
  destination : Option String := none
  startDate : Option String := none
  endDate : Option String := none
  status : Option String := none
  description : Option String := none
  coordinates : Option (Option (Int × Int)) := none
  createdAt : Option Nat := none
deriving DecidableEq

/-- The `travel_planner_trips` array managed by `StorageManager`, with
the model clock and id generator. -/
structure SMState where
  trips : List SMTrip
  now : Nat
  fresh : Nat
deriving DecidableEq

namespace StorageManager

/-- Embedding of `StorageManager.addTrip` (`src/storage.js`): builds the new record
field by field — `id: generateId()`, `title: tripData.title || ''`,
`status: tripData.status || 'planning'`, … — so nothing from the draft
can reach the `id`, then pushes and saves.  The store write is modelled
as succeeding. -/
def addTrip (s : SMState) (d : SMDraft) : SMTrip × SMState :=
  let newTrip : SMTrip :=
    { id := s.fresh
      title := d.title.getD ""
      destination := d.destination.getD ""
      startDate := d.startDate.getD ""
      endDate := d.endDate.getD ""
      status := d.status.getD "planning"
      description := d.description.getD ""
      coordinates := d.coordinates
      createdAt := s.now
      updatedAt := s.now }
  (newTrip, { s with trips := s.trips ++ [newTrip], fresh := s.fresh + 1 })

/-- The merge `{...old, ...updateData, id, updatedAt: now}` from
`StorageManager.updateTrip`: the spread is followed by an explicit `id`
shorthand (the lookup id, with the comment "确保ID不被覆盖"), so a patch
`id` can never survive; `createdAt` sits inside the spread and is
overridable. -/
def smMerge (t : SMTrip) (p : SMPatch) (id now : Nat) : SMTrip where
  id := id
  title := p.title.getD t.title
  destination := p.destination.getD t.destination
  startDate := p.startDate.getD t.startDate
  endDate := p.endDate.getD t.endDate
  status := p.status.getD t.status
  description := p.description.getD t.description
  coordinates := p.coordinates.getD t.coordinates
  createdAt := p.createdAt.getD t.createdAt
  updatedAt := now

/-- Embedding of `StorageManager.updateTrip` (`src/storage.js`): `findIndex` on the
id; `null` when absent, otherwise replace the found slot with
`smMerge` and save. -/
def updateTrip (s : SMState) (id : Nat) (p : SMPatch) :
    Option SMTrip × SMState :=
  match s.trips.find? (fun t => t.id == id) with
  | some t =>
      let newTrips :=
        updateFirst (fun x => x.id == id) (fun x => smMerge x p id s.now)
          s.trips
      (some (smMerge t p id s.now), { s with trips := newTrips })
  | none => (none, s)

/-- Embedding of `StorageManager.deleteTrip` (`src/storage.js`): filter by id; `false`
when nothing was removed, otherwise save and return the save result
(modelled as succeeding). -/
def deleteTrip (s : SMState) (id : Nat) : Bool × SMState :=
  let filteredTrips := s.trips.filter (fun t => t.id != id)
  if filteredTrips.length = s.trips.length then (false, s)
  else (true, { s with trips := filteredTrips })

end StorageManager

/-! ## `TripManager` (`src/storage.js`) -/

/-- A field-level validation failure, as pushed onto the `errors` array
of `TripManager.validateTripData`. -/
structure FieldError where
  field : String
  message : String
deriving DecidableEq

/-- The keys of `TripManager.statusMap`. -/
def statusKeys : List String :=
  ["planning", "confirmed", "ongoing", "completed", "cancelled"]

/-- A structured error of the repository layer. -/
inductive RepoError where
  | validation : RepoError
  | notFound : RepoError
deriving DecidableEq

namespace TripManager

/-- Embedding of `TripManager.validateTripData(tripData, isCreate = true)`
(`src/storage.js`): pushes one error per violated field, in source
order — title (empty / over 200 chars), start_date (empty / bad format),
end_date (empty / bad format), the date-pair comparison (an `end_date`
error, raised only when both dates parse, since `NaN` comparisons are
false), and status (only when the key is present).  The code's
`title.trim().length === 0` test (title blank after stripping
whitespace) is embedded as "every character is whitespace", which holds
of exactly the same strings. -/
def validateTripData (d : TripDraft) : List FieldError :=
  (match d.title with
   | none => [⟨"title", "行程标题不能为空"⟩]
   | some t =>
       if t.toList.all Char.isWhitespace then [⟨"title", "行程标题不能为空"⟩]
       else if t.length > 200 then [⟨"title", "行程标题不能超过200个字符"⟩]
       else [])
  ++ (match d.start_date with
      | JsDate.missing => [⟨"start_date", "开始日期不能为空"⟩]
      | JsDate.invalid => [⟨"start_date", "开始日期格式不正确"⟩]
      | JsDate.valid _ => [])
  ++ (match d.end_date with
      | JsDate.missing => [⟨"end_date", "结束日期不能为空"⟩]
      | JsDate.invalid => [⟨"end_date", "结束日期格式不正确"⟩]
      | JsDate.valid _ => [])
  ++ (match d.start_date, d.end_date with
      | JsDate.valid a, JsDate.valid b =>
          if b < a then [⟨"end_date", "结束日期不能早于开始日期"⟩] else []
      | _, _ => [])
  ++ (match d.status with
      | some st =>
          if statusKeys.contains st then [] else [⟨"status", "行程状态不正确"⟩]
      | none => [])

/-- Embedding of `TripManager.createTrip` (`src/storage.js`): run `validateTripData`
first — it throws the error list before anything is written — and only
then persist through `localStorageService.createTrip`. -/
def createTrip (s : LSState) (d : TripDraft) :
    Except (List FieldError) LSTrip × LSState :=
  let errs := validateTripData d
  if errs.isEmpty then
    let r := LocalStorageService.createTrip s d
    (Except.ok r.1, r.2)
  else (Except.error errs, s)

/-- The comparator of `TripManager.sortTripItems` (`src/storage.js`):
`sort_order` difference when both items have one, otherwise
`start_datetime` difference. -/
def itemLe (a b : LSItem) : Bool :=
  match a.sort_order, b.sort_order with
  | some x, some y => decide (x ≤ y)
  | _, _ => decide (a.start_datetime ≤ b.start_datetime)

/-- Embedding of `TripManager.sortTripItems` (`src/storage.js`): stable in-place sort
of a trip's item array with `itemLe`. -/
def sortTripItems (items : List LSItem) : List LSItem :=
  sortStable itemLe items

/-- The assignment `item.sort_order = order.sort_order` on the first item whose id
matches — one iteration of the `itemOrders.forEach` in
`TripManager.reorderTripItems`. -/
def setSortOrderFirst (iid so : Nat) (items : List LSItem) : List LSItem :=
  updateFirst (fun it => it.id == iid)
    (fun it => { it with sort_order := some so }) items

/-- The whole `itemOrders.forEach` loop: apply each `(id, sort_order)`
pair in order. -/
def applyItemOrders (items : List LSItem) (orders : List (Nat × Nat)) :
    List LSItem :=
  orders.foldl (fun acc o => setSortOrderFirst o.1 o.2 acc) items

/-- Modelled from the spec: the server handler of
`PATCH /trips/{trip_id}/items/reorder` is not under `src` (the repo holds
only its API description and the caller `TripManager.reorderTripItems`).
Per the spec, reorder "fails with `ValidationError` if `orderedIdList`
references an id not belonging to `tripId`" and otherwise assigns
`sortOrder` = position in the list; on success the caller
(`src/storage.js`, `reorderTripItems`) mirrors the assignment locally —
for each `{id, sort_order}` pair it sets `sort_order` on the first item
with that id, skipping pairs whose id it cannot find, then re-sorts the
array with `sortTripItems` (which permutes the array but changes no
`sort_order` value).  On failure the caller throws and touches
nothing. -/
def reorderTripItems (items : List LSItem) (tripId : Nat)
    (orderedIds : List Nat) : Except RepoError Unit × List LSItem :=
  if orderedIds.all
      (fun i => items.any (fun it => it.trip_id == tripId && it.id == i)) then
    (Except.ok (),
     sortTripItems
       (applyItemOrders items (orderedIds.enum.map (fun p => (p.2, p.1)))))
  else (Except.error RepoError.validation, items)

end TripManager

/-! ## Operation sequences

For lifetime properties (claim C9) we run arbitrary sequences of the
`LocalStorageService` repository operations. -/

/-- One repository operation of the `LocalStorageService` API. -/
inductive LSOp where
  | createTrip : TripDraft → LSOp
  | updateTrip : Nat → TripPatch → LSOp
  | deleteTrip : Nat → LSOp
  | createTripItem : ItemDraft → LSOp
  | updateTripItem : Nat → ItemPatch → LSOp
  | deleteTripItem : Nat → LSOp
deriving DecidableEq

/-- Apply one operation to the store, discarding the returned value. -/
def applyOp (s : LSState) : LSOp → LSState
  | LSOp.createTrip d => (LocalStorageService.createTrip s d).2
  | LSOp.updateTrip i p => (LocalStorageService.updateTrip s i p).2
  | LSOp.deleteTrip i => (LocalStorageService.deleteTrip s i).2
  | LSOp.createTripItem d => (LocalStorageService.createTripItem s d).2
  | LSOp.updateTripItem i p => (LocalStorageService.updateTripItem s i p).2
  | LSOp.deleteTripItem i => (LocalStorageService.deleteTripItem s i).2

/-- Apply one operation, then let the wall clock advance (the real clock
moves between two calls of `new Date()`). -/
def step (s : LSState) (op : LSOp) : LSState :=
  let s' := applyOp s op
  { s' with now := s'.now + 1 }

/-- Run a whole sequence of repository operations. -/
def run (s : LSState) (ops : List LSOp) : LSState :=
  ops.foldl step s

/-- A trip-update patch that carries neither an `id` key nor a
`created_at` key — the keys whose presence the `{...old, ...patch}`
merge of `LocalStorageService.updateTrip` would copy into the stored
record. -/
def goodOp : LSOp → Bool
  | LSOp.updateTrip _ p => p.id.isNone && p.created_at.isNone
  | _ => true

/-- Every stored trip was last written at a strictly earlier clock value
than the current one — true of any state reached through `step`. -/
def clockInv (s : LSState) : Prop :=
  ∀ t ∈ s.trips, t.updated_at < s.now

/-- The trip with the given id survives every prefix of the run. -/
def aliveAll (s : LSState) (i : Nat) : List LSOp → Prop
  | [] => True
  | op :: rest =>
      (LocalStorageService.lookupTrip (step s op) i).isSome = true ∧
        aliveAll (step s op) i rest

/-! ## Concrete sample stores for witnesses and counterexamples -/

/-- A stored trip used by the concrete instances. -/
def tripW : LSTrip where
  id := 1
  title := some "Tokyo"
  description := none
  start_date := JsDate.valid 10
  end_date := JsDate.valid 20
  status := some "planning"
  items := []
  created_at := 0
  updated_at := 0

/-- Record `tripW` after an empty-patch touch at clock 7. -/
def tripWtouched : LSTrip := { tripW with updated_at := 7 }

/-- Item inserted first, with `sort_order` 2. -/
def itemW0 : LSItem where
  id := 10
  trip_id := 1
  title := some "flight"
  start_datetime := 50
  end_datetime := none
  sort_order := some 2
  created_at := 0
  updated_at := 0

/-- Item inserted second, with `sort_order` 0. -/
def itemW1 : LSItem :=
  { itemW0 with id := 11, title := some "hotel", sort_order := some 0 }

/-- Item inserted third, with `sort_order` 1. -/
def itemW2 : LSItem :=
  { itemW0 with id := 12, title := some "museum", sort_order := some 1 }

/-- A concrete store: one trip (id 1) owning three items inserted with
`sort_order` values `[2, 0, 1]`, clock at 7, id counter at 100. -/
def sW : LSState where
  trips := [tripW]
  tripItems := [itemW0, itemW1, itemW2]
  now := 7
  fresh := 100

/-- The empty store. -/
def sEmpty : LSState where
  trips := []
  tripItems := []
  now := 7
  fresh := 100

/-- A concrete `StorageManager` store holding one trip with id 1. -/
def smW : SMState where
  trips := [{ id := 1, title := "Tokyo", destination := "", startDate := "2024-05-01",
              endDate := "2024-05-10", status := "planning", description := "",
              coordinates := none, createdAt := 0, updatedAt := 0 }]
  now := 7
  fresh := 100

/-! ## Properties of the generic list operations -/

theorem mem_insertStable {le : α → α → Bool} {x a : α} :
    ∀ {ys : List α}, a ∈ insertStable le x ys ↔ a = x ∨ a ∈ ys
  | [] => by simp [insertStable]
  | y :: ys => by
    by_cases h : le x y = true
    · simp [insertStable, h]
    · simp only [insertStable, if_neg h, List.mem_cons,
        @mem_insertStable _ le x a ys]
      tauto

theorem insertStable_perm (le : α → α → Bool) (x : α) :
    ∀ (ys : List α), List.Perm (insertStable le x ys) (x :: ys)
  | [] => by simp [insertStable]
  | y :: ys => by
    by_cases h : le x y = true
    · simp [insertStable, h]
    · rw [insertStable, if_neg h]
      exact ((insertStable_perm le x ys).cons y).trans (List.Perm.swap x y ys)

theorem sortStable_perm (le : α → α → Bool) :
    ∀ (l : List α), List.Perm (sortStable le l) l
  | [] => by simp [sortStable]
  | x :: xs =>
    (insertStable_perm le x (sortStable le xs)).trans
      ((sortStable_perm le xs).cons x)

theorem mem_sortStable {le : α → α → Bool} {a : α} {l : List α} :
    a ∈ sortStable le l ↔ a ∈ l :=
  (sortStable_perm le l).mem_iff

theorem sorted_insertStable {le : α → α → Bool} {x : α} :
    ∀ {ys : List α}, ys.Pairwise (fun a b => le a b = true) →
      (∀ y ∈ ys, le x y = true ∨ le y x = true) →
      (∀ y ∈ ys, ∀ z ∈ ys, le x y = true → le y z = true → le x z = true) →
      (insertStable le x ys).Pairwise (fun a b => le a b = true)
  | [], _, _, _ => by simp [insertStable]
  | y :: ys, hys, htot, htrans => by
    by_cases h : le x y = true
    · rw [insertStable, if_pos h]
      refine List.Pairwise.cons ?_ hys
      intro b hb
      rcases List.mem_cons.mp hb with rfl | hb
      · exact h
      · exact htrans y (by simp) b (by simp [hb]) h
          ((List.pairwise_cons.mp hys).1 b hb)
    · rw [insertStable, if_neg h]
      refine List.Pairwise.cons ?_ ?_
      · intro b hb
        rcases mem_insertStable.mp hb with rfl | hb
        · rcases htot y (by simp) with hy | hy
          · exact absurd hy h
          · exact hy
        · exact (List.pairwise_cons.mp hys).1 b hb
      · exact sorted_insertStable (List.pairwise_cons.mp hys).2
          (fun z hz => htot z (by simp [hz]))
          (fun z hz w hw => htrans z (by simp [hz]) w (by simp [hw]))

theorem sorted_sortStable {le : α → α → Bool}
    (htot : ∀ a b : α, le a b = true ∨ le b a = true)
    (htrans : ∀ a b c : α, le a b = true → le b c = true → le a c = true) :
    ∀ (l : List α), (sortStable le l).Pairwise (fun a b => le a b = true)
  | [] => by simp [sortStable]
  | x :: xs =>
    sorted_insertStable (sorted_sortStable htot htrans xs)
      (fun y _ => htot x y) (fun y _ z _ => htrans x y z)

/-- Stability, phrased through a sort key: for every key value `v`, the
elements whose key is `v` appear in the sorted list exactly in their
original order.  Requires the order to be the preorder induced by the
key. -/
theorem filter_insertStable (k : α → Nat) (x : α) (v : Nat) :
    ∀ (ys : List α),
      (insertStable (fun a b => decide (k a ≤ k b)) x ys).filter
          (fun a => decide (k a = v)) =
        if k x = v then
          x :: ys.filter (fun a => decide (k a = v))
        else ys.filter (fun a => decide (k a = v))
  | [] => by
    by_cases h : k x = v <;> simp [insertStable, h]
  | y :: ys => by
    rw [insertStable]
    by_cases hle : k x ≤ k y
    · rw [if_pos (by simpa using hle)]
      by_cases h : k x = v <;> simp [List.filter_cons, h]
    · rw [if_neg (by simpa using hle)]
      simp only [List.filter_cons, filter_insertStable k x v ys]
      by_cases h : k x = v
      · have hy : ¬ k y = v := by omega
        simp [h, hy]
      · by_cases hy : k y = v <;> simp [h, hy]

theorem filter_sortStable (k : α → Nat) (v : Nat) :
    ∀ (l : List α),
      (sortStable (fun a b => decide (k a ≤ k b)) l).filter
          (fun a => decide (k a = v)) =
        l.filter (fun a => decide (k a = v))
  | [] => by simp [sortStable]
  | x :: xs => by
    rw [sortStable, filter_insertStable k x v]
    by_cases h : k x = v <;>
      simp [h, filter_sortStable k v xs]

theorem length_filter_lt_of_mem_not {p : α → Bool} {x : α} :
    ∀ {l : List α}, x ∈ l → p x = false → (l.filter p).length < l.length
  | y :: ys, hx, hpx => by
    rcases List.mem_cons.mp hx with rfl | hx
    · simpa [List.filter_cons, hpx, Nat.lt_succ_iff] using
        List.length_filter_le p ys
    · have ih := length_filter_lt_of_mem_not hx hpx
      by_cases hy : p y = true
      · simpa [List.filter_cons, hy] using Nat.succ_lt_succ ih
      · simpa [List.filter_cons, hy] using Nat.lt_succ_of_lt ih

theorem find?_updateFirst_same {p : α → Bool} {f : α → α} :
    ∀ {l : List α} {t : α}, l.find? p = some t → p (f t) = true →
      (updateFirst p f l).find? p = some (f t)
  | x :: xs, t, hfind, hpf => by
    by_cases hx : p x = true
    · rw [List.find?_cons_of_pos _ hx] at hfind
      cases hfind
      simp [updateFirst, hx, List.find?_cons_of_pos _ hpf]
    · rw [List.find?_cons_of_neg _ hx] at hfind
      simp only [updateFirst, if_neg hx]
      rw [List.find?_cons_of_neg _ hx]
      exact find?_updateFirst_same hfind hpf

theorem find?_updateFirst_other {p q : α → Bool} {f : α → α}
    (hdisj : ∀ x, p x = true → q x = false)
    (hpres : ∀ x, q (f x) = q x) :
    ∀ (l : List α), (updateFirst p f l).find? q = l.find? q
  | [] => rfl
  | x :: xs => by
    by_cases hx : p x = true
    · have hqx : q x = false := hdisj x hx
      simp [updateFirst, hx, List.find?_cons_of_neg, hpres x, hqx]
    · by_cases hq : q x = true
      · simp [updateFirst, hx, List.find?_cons_of_pos _ hq]
      · simp only [updateFirst, if_neg hx]
        rw [List.find?_cons_of_neg _ (by simpa using hq),
          List.find?_cons_of_neg _ (by simpa using hq)]
        exact find?_updateFirst_other hdisj hpres xs

theorem find?_filter_of_imp {p q : α → Bool}
    (himp : ∀ x, p x = true → q x = true) :
    ∀ (l : List α), (l.filter q).find? p = l.find? p
  | [] => rfl
  | x :: xs => by
    by_cases hp : p x = true
    · have hq : q x = true := himp x hp
      simp [List.filter_cons, hq, List.find?_cons_of_pos _ hp]
    · by_cases hq : q x = true <;>
        simp [List.filter_cons, hq, List.find?_cons_of_neg,
          hp, find?_filter_of_imp himp xs]

theorem find?_filter_none {p q : α → Bool}
    (hdisj : ∀ x, p x = true → q x = false) (l : List α) :
    (l.filter q).find? p = none := by
  rw [List.find?_eq_none]
  intro x hx
  have hq := List.of_mem_filter hx
  intro hp
  rw [hdisj x hp] at hq
  cases hq

theorem find?_append_left {p : α → Bool} {t : α} :
    ∀ {l : List α}, l.find? p = some t → ∀ (l₂ : List α),
      (l ++ l₂).find? p = some t
  | x :: xs, hfind, l₂ => by
    by_cases hx : p x = true
    · rw [List.find?_cons_of_pos _ hx] at hfind
      simpa [List.find?_cons_of_pos _ hx] using hfind
    · rw [List.find?_cons_of_neg _ hx] at hfind
      simpa [List.find?_cons_of_neg _ hx] using
        find?_append_left hfind l₂

theorem mem_updateFirst_of_not {p : α → Bool} {f : α → α} {a : α} :
    ∀ {l : List α}, a ∈ l → p a = false → a ∈ updateFirst p f l
  | x :: xs, ha, hpa => by
    rcases List.mem_cons.mp ha with rfl | ha
    · rw [updateFirst, if_neg (by simp [hpa])]
      exact List.mem_cons_self _ _
    · by_cases hx : p x = true
      · rw [updateFirst, if_pos hx]
        exact List.mem_cons_of_mem _ ha
      · rw [updateFirst, if_neg hx]
        exact List.mem_cons_of_mem _ (mem_updateFirst_of_not ha hpa)

theorem map_updateFirst {p : α → Bool} {f : α → α} {g : α → β}
    (hpres : ∀ x, p x = true → g (f x) = g x) :
    ∀ (l : List α), (updateFirst p f l).map g = l.map g
  | [] => rfl
  | x :: xs => by
    by_cases hx : p x = true
    · simp [updateFirst, hx, hpres x hx]
    · simp [updateFirst, hx, map_updateFirst hpres xs]

theorem exists_updateFirst {p : α → Bool} {f : α → α} :
    ∀ {l : List α}, (∃ x ∈ l, p x = true) →
      ∃ x ∈ l, p x = true ∧ f x ∈ updateFirst p f l
  | x :: xs, hex => by
    by_cases hx : p x = true
    · exact ⟨x, by simp, hx, by rw [updateFirst, if_pos hx]; simp⟩
    · obtain ⟨y, hy, hpy⟩ := hex
      rcases List.mem_cons.mp hy with rfl | hy
      · exact absurd hpy hx
      · obtain ⟨z, hz, hpz, hfz⟩ := exists_updateFirst ⟨y, hy, hpy⟩
        exact ⟨z, List.mem_cons_of_mem _ hz, hpz, by
          rw [updateFirst, if_neg hx]; exact List.mem_cons_of_mem _ hfz⟩

theorem mem_updateFirst {p : α → Bool} {f : α → α} {a : α} :
    ∀ {l : List α}, a ∈ updateFirst p f l → a ∈ l ∨ ∃ y ∈ l, a = f y
  | x :: xs, ha => by
    by_cases hx : p x = true
    · rw [updateFirst, if_pos hx] at ha
      rcases List.mem_cons.mp ha with rfl | ha
      · exact Or.inr ⟨x, by simp⟩
      · exact Or.inl (List.mem_cons_of_mem _ ha)
    · rw [updateFirst, if_neg hx] at ha
      rcases List.mem_cons.mp ha with rfl | ha
      · exact Or.inl (by simp)
      · rcases mem_updateFirst ha with h | ⟨y, hy, rfl⟩
        · exact Or.inl (List.mem_cons_of_mem _ h)
        · exact Or.inr ⟨y, List.mem_cons_of_mem _ hy, rfl⟩

/-! ## Claim C1 — cascade delete -/

/-- C1: for every stored Trip `t` (owning any number of items), after
`TripRepository.delete(t.id)` returns `true`, `listByTrip(t.id)`
(`LocalStorageService.getTripItems`) returns the empty sequence and no
TripItem with `tripId = t.id` remains in the persisted item
collection. -/
theorem C1_cascade_delete (s : LSState) (t : LSTrip) (ht : t ∈ s.trips) :
    (LocalStorageService.deleteTrip s t.id).1 = true ∧
      LocalStorageService.getTripItems
        (LocalStorageService.deleteTrip s t.id).2 t.id = [] ∧
      ∀ it ∈ (LocalStorageService.deleteTrip s t.id).2.tripItems,
        it.trip_id ≠ t.id := by
  have hlt : (s.trips.filter (fun x => x.id != t.id)).length <
      s.trips.length :=
    length_filter_lt_of_mem_not ht (by simp)
  have hcond : (s.trips.filter (fun x => x.id != t.id)).length ≠
      s.trips.length := Nat.ne_of_lt hlt
  simp only [LocalStorageService.deleteTrip]
  rw [if_pos hcond]
  refine ⟨rfl, ?_, ?_⟩
  · simp only [LocalStorageService.getTripItems]
    have hnil : ((s.tripItems.filter fun it => it.trip_id != t.id).filter
        fun it => it.trip_id == t.id) = [] := by
      rw [List.filter_eq_nil_iff]
      intro a ha
      have h1 := List.of_mem_filter ha
      simp only [bne_iff_ne, ne_eq] at h1
      simp [h1]
    rw [hnil]
    rfl
  · intro it hit
    have h1 := List.of_mem_filter hit
    simpa using h1

/-- Witness for C1 at the concrete store `sW`. -/
theorem C1_cascade_delete_witness :
    (LocalStorageService.deleteTrip sW tripW.id).1 = true ∧
      LocalStorageService.getTripItems
        (LocalStorageService.deleteTrip sW tripW.id).2 tripW.id = [] ∧
      ∀ it ∈ (LocalStorageService.deleteTrip sW tripW.id).2.tripItems,
        it.trip_id ≠ tripW.id :=
  C1_cascade_delete sW tripW (by decide)

/-! ## Claim C7 — delete result and idempotence -/

/-- C7: `TripRepository.delete(id)` returns `false` (without raising)
when no Trip with that id exists, `true` when one does; and a second
`delete` on the state the first one returned always returns `false`. -/
theorem C7_idempotent_delete (s : LSState) (i : Nat) :
    ((LocalStorageService.deleteTrip s i).1 =
        s.trips.any (fun t => t.id == i)) ∧
      (LocalStorageService.deleteTrip
        (LocalStorageService.deleteTrip s i).2 i).1 = false ∧
      ((LocalStorageService.deleteTrip s i).1 = false →
        (LocalStorageService.deleteTrip s i).2 = s) := by
  have key : (s.trips.filter (fun t => t.id != i)).length ≠ s.trips.length ↔
      s.trips.any (fun t => t.id == i) = true := by
    constructor
    · intro h
      by_contra hany
      refine h ?_
      have hall : ∀ t ∈ s.trips, (t.id != i) = true := by
        intro t ht
        by_contra hne
        exact hany (List.any_eq_true.mpr ⟨t, ht, by
          simpa using hne⟩)
      rw [List.filter_eq_self.mpr hall]
    · intro h
      obtain ⟨t, ht, hti⟩ := List.any_eq_true.mp h
      exact Nat.ne_of_lt
        (length_filter_lt_of_mem_not ht (by simpa using hti))
  by_cases hc : (s.trips.filter (fun t => t.id != i)).length ≠ s.trips.length
  · have hany := key.mp hc
    simp only [LocalStorageService.deleteTrip]
    rw [if_pos hc]
    refine ⟨hany.symm, ?_, by intro h; cases h⟩
    have hidem : ((s.trips.filter fun t => t.id != i).filter
        fun t => t.id != i) = s.trips.filter fun t => t.id != i :=
      List.filter_eq_self.mpr (fun a ha => (List.mem_filter.mp ha).2)
    rw [if_neg (by simp [hidem])]
  · have hany : s.trips.any (fun t => t.id == i) = false := by
      by_contra h
      exact hc (key.mpr (by simpa using h))
    simp only [LocalStorageService.deleteTrip]
    rw [if_neg hc]
    exact ⟨hany.symm, by rw [if_neg hc], fun _ => rfl⟩

/-- Witness for C7 at the concrete store `sW` and id 1. -/
theorem C7_idempotent_delete_witness :
    ((LocalStorageService.deleteTrip sW 1).1 =
        sW.trips.any (fun t => t.id == 1)) ∧
      (LocalStorageService.deleteTrip
        (LocalStorageService.deleteTrip sW 1).2 1).1 = false :=
  ⟨(C7_idempotent_delete sW 1).1, (C7_idempotent_delete sW 1).2.1⟩

/-! ## Claim C10 — an empty partial only touches `updated_at` -/

theorem mergeTrip_empty (t : LSTrip) (now : Nat) :
    mergeTrip t {} now = { t with updated_at := now } := rfl

theorem updateTrip_trips_congr (s r : LSState) (i : Nat) (p : TripPatch)
    (htr : s.trips = r.trips) (hn : s.now = r.now) :
    (LocalStorageService.updateTrip s i p).2.trips =
      (LocalStorageService.updateTrip r i p).2.trips := by
  simp only [LocalStorageService.updateTrip, htr, hn]
  cases r.trips.find? (fun t => t.id == i) <;> simp [htr]

/-- C10: updating an existing trip with the empty partial returns and
stores the trip with only `updated_at` refreshed (to the current clock);
every other trip, and the whole item collection, are untouched; and the
trips-collection effect of `deleteTripItem` / `createTripItem` on the
parent trip is exactly this empty-partial touch. -/
theorem C10_empty_patch_touch (s : LSState) (i : Nat) (t : LSTrip)
    (ht : LocalStorageService.lookupTrip s i = some t) :
    (LocalStorageService.updateTrip s i {}).1 =
        some { t with updated_at := s.now } ∧
      LocalStorageService.lookupTrip
          (LocalStorageService.updateTrip s i {}).2 i =
        some { t with updated_at := s.now } ∧
      (∀ j, j ≠ i →
        LocalStorageService.lookupTrip
            (LocalStorageService.updateTrip s i {}).2 j =
          LocalStorageService.lookupTrip s j) ∧
      (LocalStorageService.updateTrip s i {}).2.tripItems = s.tripItems ∧
      (∀ iid it, LocalStorageService.lookupItem s iid = some it →
        it.trip_id = i →
        (LocalStorageService.deleteTripItem s iid).2.trips =
          (LocalStorageService.updateTrip s i {}).2.trips) ∧
      (∀ d : ItemDraft, d.trip_id = i →
        (LocalStorageService.createTripItem s d).2.trips =
          (LocalStorageService.updateTrip s i {}).2.trips) := by
  have hfind : s.trips.find? (fun x => x.id == i) = some t := ht
  have hpt0 := List.find?_some hfind
  have hpt : (t.id == i) = true := by simpa using hpt0
  refine ⟨?_, ?_, ?_, ?_, ?_, ?_⟩
  · simp only [LocalStorageService.updateTrip, hfind, mergeTrip_empty]
  · simp only [LocalStorageService.updateTrip, hfind,
      LocalStorageService.lookupTrip]
    have := find?_updateFirst_same (f := fun x => mergeTrip x {} s.now)
      hfind (by simpa [mergeTrip_empty] using hpt)
    simpa [mergeTrip_empty] using this
  · intro j hj
    simp only [LocalStorageService.updateTrip, hfind,
      LocalStorageService.lookupTrip]
    exact find?_updateFirst_other
      (fun x hx => by
        have hxi : x.id = i := by simpa using hx
        have hne : ¬ x.id = j := by rw [hxi]; exact Ne.symm hj
        simpa using hne)
      (fun x => by simp [mergeTrip]) s.trips
  · simp only [LocalStorageService.updateTrip, hfind]
  · intro iid it hit htrip
    have hfind2 : s.tripItems.find? (fun x => x.id == iid) = some it := hit
    simp only [LocalStorageService.deleteTripItem, hfind2]
    rw [htrip]
    exact updateTrip_trips_congr _ _ _ _ rfl rfl
  · intro d hd
    simp only [LocalStorageService.createTripItem]
    rw [hd]
    exact updateTrip_trips_congr _ _ _ _ rfl rfl

/-- Witness for C10 at the concrete store `sW`, trip id 1. -/
theorem C10_empty_patch_touch_witness :
    (LocalStorageService.updateTrip sW 1 {}).1 = some tripWtouched ∧
      LocalStorageService.lookupTrip
          (LocalStorageService.updateTrip sW 1 {}).2 1 = some tripWtouched ∧
      (LocalStorageService.updateTrip sW 1 {}).2.tripItems = sW.tripItems := by
  have h := C10_empty_patch_touch sW 1 tripW (by decide)
  exact ⟨h.1, h.2.1, h.2.2.2.1⟩

/-! ## Claim C3 — no referential check in `createTripItem` -/

theorem updateTrip_tripItems (s : LSState) (i : Nat) (p : TripPatch) :
    (LocalStorageService.updateTrip s i p).2.tripItems = s.tripItems := by
  simp only [LocalStorageService.updateTrip]
  cases s.trips.find? (fun t => t.id == i) <;> rfl

theorem updateTrip_lookup_self (s : LSState) (i : Nat) (p : TripPatch)
    (t : LSTrip) (hp : p.id = none)
    (ht : LocalStorageService.lookupTrip s i = some t) :
    LocalStorageService.lookupTrip
        (LocalStorageService.updateTrip s i p).2 i =
      some (mergeTrip t p s.now) := by
  have hfind : s.trips.find? (fun x => x.id == i) = some t := ht
  have hpt0 := List.find?_some hfind
  simp only [LocalStorageService.updateTrip, hfind,
    LocalStorageService.lookupTrip]
  exact find?_updateFirst_same hfind (by simpa [mergeTrip, hp] using hpt0)

/-- C3 counterexample: on the empty store — no Trip with id 42
exists — `createTripItem` does not fail and the drafted item is
persisted with `trip_id = 42`, so the stored item collection is not
what it was before the call. -/
theorem C3_counterexample :
    sEmpty.trips = [] ∧
      (LocalStorageService.createTripItem sEmpty
          { trip_id := 42, start_datetime := 5 }).2.tripItems.length = 1 ∧
      (LocalStorageService.createTripItem sEmpty
          { trip_id := 42, start_datetime := 5 }).1.trip_id = 42 := by
  decide

/-- C3 amended: `LocalStorageService.createTripItem` performs no
referential check and reports no error: for every store and draft it
appends the new item (carrying the draft's `tripId`) to the item
collection and returns it; when the referenced trip exists, its
`updated_at` is refreshed, and when it does not, the trips collection is
left unchanged. -/
theorem C3_amended_no_referential_check (s : LSState) (d : ItemDraft) :
    (LocalStorageService.createTripItem s d).2.tripItems =
        s.tripItems ++ [(LocalStorageService.createTripItem s d).1] ∧
      (LocalStorageService.createTripItem s d).1.trip_id = d.trip_id ∧
      (LocalStorageService.lookupTrip s d.trip_id = none →
        (LocalStorageService.createTripItem s d).2.trips = s.trips) ∧
      (∀ t, LocalStorageService.lookupTrip s d.trip_id = some t →
        LocalStorageService.lookupTrip
            (LocalStorageService.createTripItem s d).2 d.trip_id =
          some { t with updated_at := s.now }) := by
  refine ⟨?_, rfl, ?_, ?_⟩
  · simp only [LocalStorageService.createTripItem, updateTrip_tripItems]
  · intro hnone
    have hfind : s.trips.find? (fun x => x.id == d.trip_id) = none := hnone
    simp only [LocalStorageService.createTripItem,
      LocalStorageService.updateTrip, hfind]
  · intro t ht
    have hfind : s.trips.find? (fun x => x.id == d.trip_id) = some t := ht
    have hpt0 := List.find?_some hfind
    simp only [LocalStorageService.createTripItem,
      LocalStorageService.updateTrip, LocalStorageService.lookupTrip, hfind]
    have := find?_updateFirst_same
      (f := fun x => mergeTrip x ({} : TripPatch) s.now) hfind
      (by simpa [mergeTrip] using hpt0)
    simpa [mergeTrip_empty] using this

/-- Witness for the amended C3 on the empty store. -/
theorem C3_amended_witness :
    (LocalStorageService.createTripItem sEmpty
        { trip_id := 42, start_datetime := 5 }).2.tripItems =
      sEmpty.tripItems ++
        [(LocalStorageService.createTripItem sEmpty
            { trip_id := 42, start_datetime := 5 }).1] ∧
      (LocalStorageService.createTripItem sEmpty
          { trip_id := 42, start_datetime := 5 }).2.trips = sEmpty.trips := by
  have h := C3_amended_no_referential_check sEmpty
    { trip_id := 42, start_datetime := 5 }
  exact ⟨h.1, h.2.2.1 (by decide)⟩

/-! ## Claim C4 — id field in an update partial -/

/-- C4 counterexample: `LocalStorageService.updateTrip` with a partial
that carries `id: 2` does change the stored record's id — after the
call the store's id list is `[2]` and no trip with the original id 1
remains. -/
theorem C4_counterexample :
    (LocalStorageService.updateTrip sW 1 { id := some 2 }).2.trips.map
        (fun t => t.id) = [2] ∧
      LocalStorageService.lookupTrip
        (LocalStorageService.updateTrip sW 1 { id := some 2 }).2 1 =
          none := by
  decide

/-- C4 amended: `StorageManager.updateTrip` ignores any `id` in the
partial — the stored id list is unchanged for every partial and the
returned trip keeps the lookup id — while `LocalStorageService.updateTrip`
preserves the stored ids only for partials that carry no `id` key (an
`id` in the partial overwrites the stored record's id there). -/
theorem C4_amended_id_protection (s1 : SMState) (s2 : LSState) (i : Nat)
    (p1 : SMPatch) (p2 : TripPatch) (hp2 : p2.id = none) :
    ((StorageManager.updateTrip s1 i p1).2.trips.map (fun t => t.id) =
        s1.trips.map (fun t => t.id)) ∧
      (∀ t, (StorageManager.updateTrip s1 i p1).1 = some t → t.id = i) ∧
      ((LocalStorageService.updateTrip s2 i p2).2.trips.map
          (fun t => t.id) =
        s2.trips.map (fun t => t.id)) := by
  refine ⟨?_, ?_, ?_⟩
  · simp only [StorageManager.updateTrip]
    cases hf : s1.trips.find? (fun t => t.id == i)
    · rfl
    · exact map_updateFirst
        (fun x hx => by
          have : x.id = i := by simpa using hx
          simp [StorageManager.smMerge, this]) s1.trips
  · intro t ht
    simp only [StorageManager.updateTrip] at ht
    cases hf : s1.trips.find? (fun x => x.id == i) <;> rw [hf] at ht
    · cases ht
    · cases ht
      rfl
  · simp only [LocalStorageService.updateTrip]
    cases hf : s2.trips.find? (fun t => t.id == i)
    · rfl
    · exact map_updateFirst
        (fun x _ => by simp [mergeTrip, hp2]) s2.trips

/-- Witness for the amended C4 at the concrete stores. -/
theorem C4_amended_witness :
    ((StorageManager.updateTrip smW 1 { id := some 99 }).2.trips.map
        (fun t => t.id) = smW.trips.map (fun t => t.id)) ∧
      ((LocalStorageService.updateTrip sW 1 {}).2.trips.map
          (fun t => t.id) = sW.trips.map (fun t => t.id)) := by
  have h := C4_amended_id_protection smW sW 1 { id := some 99 } {}
    (by decide)
  exact ⟨h.1, h.2.2⟩

/-! ## Claim C8 — freshness of the id assigned at creation -/

/-- C8 counterexample: a draft that carries `id: 7` makes
`LocalStorageService.createTrip` return a Trip whose id is 7 — the
draft's id, not the freshly generated one (the generator's next value is
100). -/
theorem C8_counterexample :
    (LocalStorageService.createTrip sEmpty { id := some 7 }).1.id = 7 ∧
      sEmpty.fresh = 100 ∧
      (LocalStorageService.createTrip sEmpty { id := some 7 }).1.id ≠
        sEmpty.fresh := by
  decide

/-- C8 amended: `StorageManager.addTrip` always assigns the freshly
generated id (whatever the draft contains) and appends the new record;
`LocalStorageService.createTrip` assigns the freshly generated id only
when the draft carries no `id` key — a draft `id` overrides the
generated one there. -/
theorem C8_amended_fresh_id (s1 : SMState) (d1 : SMDraft) (s2 : LSState)
    (d2 : TripDraft) (hd2 : d2.id = none) :
    (StorageManager.addTrip s1 d1).1.id = s1.fresh ∧
      (StorageManager.addTrip s1 d1).2.trips =
        s1.trips ++ [(StorageManager.addTrip s1 d1).1] ∧
      (LocalStorageService.createTrip s2 d2).1.id = s2.fresh := by
  refine ⟨rfl, rfl, ?_⟩
  simp [LocalStorageService.createTrip, hd2]

/-- Witness for the amended C8. -/
theorem C8_amended_witness :
    (StorageManager.addTrip smW { id := some 55 }).1.id = smW.fresh ∧
      (LocalStorageService.createTrip sEmpty {}).1.id = sEmpty.fresh := by
  have h := C8_amended_fresh_id smW { id := some 55 } sEmpty {} (by decide)
  exact ⟨h.1, h.2.2⟩

/-! ## Claim C2 — ordering of `listByTrip` -/

theorem sorted_sortStable_mem {le : α → α → Bool} :
    ∀ (l : List α),
      (∀ a ∈ l, ∀ b ∈ l, le a b = true ∨ le b a = true) →
      (∀ a ∈ l, ∀ b ∈ l, ∀ c ∈ l,
        le a b = true → le b c = true → le a c = true) →
      (sortStable le l).Pairwise (fun a b => le a b = true)
  | [], _, _ => by simp [sortStable]
  | x :: xs, htot, htrans => by
    rw [sortStable]
    refine sorted_insertStable
      (sorted_sortStable_mem xs
        (fun a ha b hb => htot a (by simp [ha]) b (by simp [hb]))
        (fun a ha b hb c hc =>
          htrans a (by simp [ha]) b (by simp [hb]) c (by simp [hc])))
      (fun y hy => htot x (by simp) y (by simp [mem_sortStable.mp hy]))
      (fun y hy z hz =>
        htrans x (by simp) y (by simp [mem_sortStable.mp hy]) z
          (by simp [mem_sortStable.mp hz]))

/-- C2 counterexample: the three items of trip 1 all have `sortOrder`
set — values `[2, 0, 1]` in insertion order — yet `listByTrip`
(`LocalStorageService.getTripItems`) returns them in insertion order, not
in the `sortOrder`-ascending order `[item_with_0, item_with_1,
item_with_2]` the claim requires. -/
theorem C2_counterexample :
    LocalStorageService.getTripItems sW 1 = [itemW0, itemW1, itemW2] ∧
      itemW0.sort_order = some 2 ∧
      itemW1.sort_order = some 0 ∧
      itemW2.sort_order = some 1 ∧
      (∀ it ∈ LocalStorageService.getTripItems sW 1,
        it.sort_order ≠ none) ∧
      LocalStorageService.getTripItems sW 1 ≠ [itemW1, itemW2, itemW0] := by
  decide

/-- C2 amended: `listByTrip` (`LocalStorageService.getTripItems`) ignores
`sortOrder` entirely — it returns exactly the trip's items ordered by
`startDatetime` ascending with ties broken by insertion order, whether or
not every item has a `sortOrder` set.  The `sortOrder`-ascending ordering
is applied only by `TripManager.sortTripItems` to the in-memory
`currentTrip.items`: whenever every item has a `sortOrder` set, that sort
orders by `sortOrder` ascending. -/
theorem C2_amended_listByTrip_order (s : LSState) (tid : Nat) :
    List.Perm (LocalStorageService.getTripItems s tid)
        (s.tripItems.filter (fun it => it.trip_id == tid)) ∧
      (LocalStorageService.getTripItems s tid).Pairwise
        (fun a b => a.start_datetime ≤ b.start_datetime) ∧
      (∀ v, (LocalStorageService.getTripItems s tid).filter
          (fun it => decide (it.start_datetime = v)) =
        (s.tripItems.filter (fun it => it.trip_id == tid)).filter
          (fun it => decide (it.start_datetime = v))) ∧
      (∀ items : List LSItem, (∀ it ∈ items, it.sort_order ≠ none) →
        (TripManager.sortTripItems items).Pairwise
          (fun a b => a.sort_order.getD 0 ≤ b.sort_order.getD 0)) := by
  refine ⟨sortStable_perm _ _, ?_, ?_, ?_⟩
  · have h := @sorted_sortStable_mem _
      (fun a b : LSItem => decide (a.start_datetime ≤ b.start_datetime))
      (s.tripItems.filter (fun it => it.trip_id == tid))
      (fun a _ b _ => by
        rcases Nat.le_total a.start_datetime b.start_datetime with h | h
        · exact Or.inl (by simpa using h)
        · exact Or.inr (by simpa using h))
      (fun a _ b _ c _ hab hbc => by
        simp only [decide_eq_true_eq] at hab hbc ⊢
        exact Nat.le_trans hab hbc)
    exact h.imp (fun hab => by simpa using hab)
  · intro v
    exact filter_sortStable (fun it : LSItem => it.start_datetime) v _
  · intro items hso
    have hsx : ∀ it ∈ items, ∃ x, it.sort_order = some x := by
      intro it hit
      cases hx : it.sort_order
      · exact absurd hx (hso it hit)
      · exact ⟨_, rfl⟩
    have h := @sorted_sortStable_mem _ TripManager.itemLe items
      (fun a ha b hb => by
        obtain ⟨x, hx⟩ := hsx a ha
        obtain ⟨y, hy⟩ := hsx b hb
        rcases Nat.le_total x y with h | h
        · exact Or.inl (by simp [TripManager.itemLe, hx, hy, h])
        · exact Or.inr (by simp [TripManager.itemLe, hx, hy, h]))
      (fun a ha b hb c hc hab hbc => by
        obtain ⟨x, hx⟩ := hsx a ha
        obtain ⟨y, hy⟩ := hsx b hb
        obtain ⟨z, hz⟩ := hsx c hc
        simp only [TripManager.itemLe, hx, hy, hz,
          decide_eq_true_eq] at hab hbc ⊢
        exact Nat.le_trans hab hbc)
    refine List.Pairwise.imp_of_mem ?_ h
    intro a b ha hb hab
    have ha2 := mem_sortStable.mp ha
    have hb2 := mem_sortStable.mp hb
    obtain ⟨x, hx⟩ := hsx a ha2
    obtain ⟨y, hy⟩ := hsx b hb2
    simpa [TripManager.itemLe, hx, hy] using hab

/-- Witness for the amended C2 at the concrete store `sW` and for the
all-`sortOrder`-set premise of the `sortTripItems` clause. -/
theorem C2_amended_witness :
    List.Perm (LocalStorageService.getTripItems sW 1)
        (sW.tripItems.filter (fun it => it.trip_id == 1)) ∧
      (TripManager.sortTripItems [itemW0, itemW1, itemW2]).Pairwise
        (fun a b => a.sort_order.getD 0 ≤ b.sort_order.getD 0) := by
  have h := C2_amended_listByTrip_order sW 1
  exact ⟨h.1, h.2.2.2 [itemW0, itemW1, itemW2] (by decide)⟩

/-! ## Claim C5 — validation on trip creation -/

set_option maxHeartbeats 1000000 in
theorem validate_fields_nodup (d : TripDraft) :
    ((TripManager.validateTripData d).map (fun e => e.field)).Nodup := by
  obtain ⟨did, tit, desc, sd, ed, dst⟩ := d
  rcases tit with _ | t <;> rcases sd with _ | _ | a <;>
    rcases ed with _ | _ | b <;> rcases dst with _ | st <;>
    simp only [TripManager.validateTripData] <;> (try split_ifs) <;>
    simp_all

set_option maxHeartbeats 1000000 in
theorem validate_title_iff (d : TripDraft) :
    (∃ e ∈ TripManager.validateTripData d, e.field = "title") ↔
      (d.title = none ∨ ∃ t, d.title = some t ∧
        (t.toList.all Char.isWhitespace = true ∨ 200 < t.length)) := by
  obtain ⟨did, tit, desc, sd, ed, dst⟩ := d
  rcases tit with _ | t <;> rcases sd with _ | _ | a <;>
    rcases ed with _ | _ | b <;> rcases dst with _ | st <;>
    simp only [TripManager.validateTripData] <;> (try split_ifs) <;>
    simp_all

set_option maxHeartbeats 1000000 in
theorem validate_start_iff (d : TripDraft) :
    (∃ e ∈ TripManager.validateTripData d, e.field = "start_date") ↔
      (d.start_date = JsDate.missing ∨ d.start_date = JsDate.invalid) := by
  obtain ⟨did, tit, desc, sd, ed, dst⟩ := d
  rcases tit with _ | t <;> rcases sd with _ | _ | a <;>
    rcases ed with _ | _ | b <;> rcases dst with _ | st <;>
    simp only [TripManager.validateTripData] <;> (try split_ifs) <;>
    simp_all

set_option maxHeartbeats 1000000 in
theorem validate_end_iff (d : TripDraft) :
    (∃ e ∈ TripManager.validateTripData d, e.field = "end_date") ↔
      (d.end_date = JsDate.missing ∨ d.end_date = JsDate.invalid ∨
        ∃ a b, d.start_date = JsDate.valid a ∧
          d.end_date = JsDate.valid b ∧ b < a) := by
  obtain ⟨did, tit, desc, sd, ed, dst⟩ := d
  rcases tit with _ | t <;> rcases sd with _ | _ | a <;>
    rcases ed with _ | _ | b <;> rcases dst with _ | st <;>
    simp only [TripManager.validateTripData] <;> (try split_ifs) <;>
    simp_all

set_option maxHeartbeats 1000000 in
theorem validate_status_iff (d : TripDraft) :
    (∃ e ∈ TripManager.validateTripData d, e.field = "status") ↔
      (∃ st, d.status = some st ∧ st ∉ statusKeys) := by
  obtain ⟨did, tit, desc, sd, ed, dst⟩ := d
  rcases tit with _ | t <;> rcases sd with _ | _ | a <;>
    rcases ed with _ | _ | b <;> rcases dst with _ | st <;>
    simp only [TripManager.validateTripData] <;> (try split_ifs) <;>
    simp_all

/-- C5: for every invalid trip draft, `TripManager.createTrip` fails with
the validation error list and persists nothing (the returned state is the
input state); the error list carries one entry per field (its field names
are duplicate-free) and cites exactly the violated fields — title
non-blank and at most 200 characters, a valid date pair, a valid
status — and in particular a draft whose `endDate` is earlier than its
`startDate` fails citing `end_date`. -/
theorem C5_validation_errors (s : LSState) (d : TripDraft) :
    (TripManager.validateTripData d ≠ [] →
      TripManager.createTrip s d =
        (Except.error (TripManager.validateTripData d), s)) ∧
      ((TripManager.validateTripData d).map (fun e => e.field)).Nodup ∧
      ((∃ e ∈ TripManager.validateTripData d, e.field = "title") ↔
        (d.title = none ∨ ∃ t, d.title = some t ∧
          (t.toList.all Char.isWhitespace = true ∨ 200 < t.length))) ∧
      ((∃ e ∈ TripManager.validateTripData d, e.field = "start_date") ↔
        (d.start_date = JsDate.missing ∨ d.start_date = JsDate.invalid)) ∧
      ((∃ e ∈ TripManager.validateTripData d, e.field = "end_date") ↔
        (d.end_date = JsDate.missing ∨ d.end_date = JsDate.invalid ∨
          ∃ a b, d.start_date = JsDate.valid a ∧
            d.end_date = JsDate.valid b ∧ b < a)) ∧
      ((∃ e ∈ TripManager.validateTripData d, e.field = "status") ↔
        (∃ st, d.status = some st ∧ st ∉ statusKeys)) ∧
      (∀ a b, d.start_date = JsDate.valid a → d.end_date = JsDate.valid b →
        b < a → ∃ e ∈ TripManager.validateTripData d,
          e.field = "end_date") := by
  refine ⟨?_, validate_fields_nodup d, validate_title_iff d,
    validate_start_iff d, validate_end_iff d, validate_status_iff d, ?_⟩
  · intro h
    simp only [TripManager.createTrip]
    rw [if_neg (by simpa [List.isEmpty_iff] using h)]
  · intro a b ha hb hlt
    exact (validate_end_iff d).mpr (Or.inr (Or.inr ⟨a, b, ha, hb, hlt⟩))

/-- Witness for C5: the spec's own example — `endDate` earlier than
`startDate` — fails with an error list citing `end_date`, and nothing is
persisted. -/
theorem C5_validation_errors_witness :
    TripManager.createTrip sEmpty
        { title := some "T", start_date := JsDate.valid 20,
          end_date := JsDate.valid 10 } =
      (Except.error (TripManager.validateTripData
        { title := some "T", start_date := JsDate.valid 20,
          end_date := JsDate.valid 10 }), sEmpty) ∧
      ∃ e ∈ TripManager.validateTripData
        { title := some "T", start_date := JsDate.valid 20,
          end_date := JsDate.valid 10 }, e.field = "end_date" := by
  have h := C5_validation_errors sEmpty
    { title := some "T", start_date := JsDate.valid 20,
      end_date := JsDate.valid 10 }
  exact ⟨h.1 (by decide), h.2.2.2.2.2.2 20 10 rfl rfl (by decide)⟩

/-! ## Claim C6 — reorder validation and all-or-nothing -/

theorem exists_setSortOrderFirst {iid so : Nat} {items : List LSItem}
    (h : ∃ it ∈ items, it.id = iid) :
    ∃ it2 ∈ TripManager.setSortOrderFirst iid so items,
      it2.id = iid ∧ it2.sort_order = some so := by
  obtain ⟨x, hx, hpx, hfx⟩ := exists_updateFirst
    (p := fun it => it.id == iid)
    (f := fun (it : LSItem) => { it with sort_order := some so })
    (by obtain ⟨it, hit, hid⟩ := h; exact ⟨it, hit, by simpa using hid⟩)
  exact ⟨_, hfx, by simpa using hpx, rfl⟩

theorem ids_setSortOrderFirst (iid so : Nat) (items : List LSItem) :
    (TripManager.setSortOrderFirst iid so items).map (fun it => it.id) =
      items.map (fun it => it.id) := by
  simp only [TripManager.setSortOrderFirst]
  refine map_updateFirst ?_ items
  intro x hx
  rfl

theorem mem_setSortOrderFirst_of_ne {iid so : Nat} {it : LSItem}
    {items : List LSItem} (h : it ∈ items) (hne : it.id ≠ iid) :
    it ∈ TripManager.setSortOrderFirst iid so items :=
  mem_updateFirst_of_not h (by simpa using hne)

theorem applyItemOrders_spec :
    ∀ (orders : List (Nat × Nat)) (items : List LSItem),
      (orders.map Prod.fst).Nodup →
      (∀ o ∈ orders, ∃ it ∈ items, it.id = o.1) →
      (∀ o ∈ orders, ∃ it2 ∈ TripManager.applyItemOrders items orders,
          it2.id = o.1 ∧ it2.sort_order = some o.2) ∧
        (∀ it ∈ items, it.id ∉ orders.map Prod.fst →
          it ∈ TripManager.applyItemOrders items orders)
  | [], items, _, _ =>
    ⟨by simp, fun it hit _ => by
      simpa [TripManager.applyItemOrders] using hit⟩
  | o :: rest, items, hord, hex => by
    have hstep : TripManager.applyItemOrders items (o :: rest) =
        TripManager.applyItemOrders
          (TripManager.setSortOrderFirst o.1 o.2 items) rest := rfl
    have hord2 : o.1 ∉ rest.map Prod.fst ∧ (rest.map Prod.fst).Nodup := by
      rw [List.map_cons] at hord
      exact List.nodup_cons.mp hord
    have hids : (TripManager.setSortOrderFirst o.1 o.2 items).map
        (fun it => it.id) = items.map (fun it => it.id) :=
      ids_setSortOrderFirst o.1 o.2 items
    have hex2 : ∀ o2 ∈ rest, ∃ it ∈
        TripManager.setSortOrderFirst o.1 o.2 items, it.id = o2.1 := by
      intro o2 ho2
      obtain ⟨it, hit, hid⟩ := hex o2 (List.mem_cons_of_mem _ ho2)
      have : o2.1 ∈ (TripManager.setSortOrderFirst o.1 o.2 items).map
          (fun it => it.id) := by
        rw [hids]
        exact List.mem_map.mpr ⟨it, hit, hid⟩
      obtain ⟨it2, hit2, hid2⟩ := List.mem_map.mp this
      exact ⟨it2, hit2, hid2⟩
    have IH := applyItemOrders_spec rest
      (TripManager.setSortOrderFirst o.1 o.2 items) hord2.2 hex2
    refine ⟨?_, ?_⟩
    · intro o2 ho2
      rcases List.mem_cons.mp ho2 with rfl | ho2
      · obtain ⟨it2, hit2, hid2, hso2⟩ :=
          exists_setSortOrderFirst (hex o2 (by simp))
        refine ⟨it2, ?_, hid2, hso2⟩
        rw [hstep]
        exact IH.2 it2 hit2 (by rw [hid2]; exact hord2.1)
      · rw [hstep]
        exact IH.1 o2 ho2
    · intro it hit hnot
      have hne : it.id ≠ o.1 := by
        intro h
        exact hnot (by simp [h])
      have hnot2 : it.id ∉ rest.map Prod.fst := by
        intro h
        exact hnot (by simp [h])
      rw [hstep]
      exact IH.2 it (mem_setSortOrderFirst_of_ne hit hne) hnot2

/-- C6: when `orderedIdList` references an id not belonging to an item of
the trip, `reorder` fails with a `ValidationError` and no item's
`sortOrder` is mutated (the item collection is returned untouched); when
every id belongs to the trip, the call succeeds, each referenced item's
`sortOrder` is set to its position in `orderedIdList`, and unreferenced
items are carried over unchanged.  (The server side of the reorder
endpoint is modelled from the spec — see `TripManager.reorderTripItems`.) -/
theorem C6_reorder_validation (items : List LSItem) (tripId : Nat)
    (orderedIds : List Nat) (hnd : orderedIds.Nodup) :
    ((∃ i ∈ orderedIds, ∀ it ∈ items,
        ¬(it.trip_id = tripId ∧ it.id = i)) →
      TripManager.reorderTripItems items tripId orderedIds =
        (Except.error RepoError.validation, items)) ∧
      ((∀ i ∈ orderedIds, ∃ it ∈ items, it.trip_id = tripId ∧ it.id = i) →
        (TripManager.reorderTripItems items tripId orderedIds).1 =
            Except.ok () ∧
          (∀ p i, orderedIds.get? p = some i →
            ∃ it2 ∈ (TripManager.reorderTripItems items tripId
                orderedIds).2,
              it2.id = i ∧ it2.sort_order = some p) ∧
          (∀ it ∈ items, it.id ∉ orderedIds →
            it ∈ (TripManager.reorderTripItems items tripId
              orderedIds).2)) := by
  constructor
  · rintro ⟨i, hi, hnone⟩
    have hcond : ¬ (orderedIds.all (fun i => items.any
        (fun it => it.trip_id == tripId && it.id == i)) = true) := by
      intro hall
      obtain ⟨it, hit, hp⟩ := List.any_eq_true.mp
        (List.all_eq_true.mp hall i hi)
      have hp2 : (it.trip_id == tripId) = true ∧ (it.id == i) = true := by
        simpa using hp
      exact hnone it hit ⟨by simpa using hp2.1, by simpa using hp2.2⟩
    simp only [TripManager.reorderTripItems]
    rw [if_neg hcond]
  · intro hall
    have hcond : orderedIds.all (fun i => items.any
        (fun it => it.trip_id == tripId && it.id == i)) = true := by
      rw [List.all_eq_true]
      intro i hi
      obtain ⟨it, hit, h1, h2⟩ := hall i hi
      exact List.any_eq_true.mpr ⟨it, hit, by simp [h1, h2]⟩
    have hmapfst : (orderedIds.enum.map
        (fun p => (p.2, p.1))).map Prod.fst = orderedIds := by
      rw [List.map_map]
      exact List.enum_map_snd orderedIds
    have hex : ∀ o ∈ orderedIds.enum.map (fun p => (p.2, p.1)),
        ∃ it ∈ items, it.id = o.1 := by
      intro o ho
      obtain ⟨q, hq, rfl⟩ := List.mem_map.mp ho
      obtain ⟨p2, i2⟩ := q
      have hgm : orderedIds[p2]? = some i2 :=
        List.mk_mem_enum_iff_getElem?.mp hq
      have hqm : i2 ∈ orderedIds := by
        obtain ⟨hlt, rfl⟩ := List.getElem?_eq_some_iff.mp hgm
        exact List.getElem_mem hlt
      obtain ⟨it, hit, _, h2⟩ := hall i2 hqm
      exact ⟨it, hit, h2⟩
    have spec := applyItemOrders_spec
      (orderedIds.enum.map (fun p => (p.2, p.1))) items
      (by rw [hmapfst]; exact hnd) hex
    simp only [TripManager.reorderTripItems]
    rw [if_pos hcond]
    refine ⟨rfl, ?_, ?_⟩
    · intro p i hget
      have hmem : (p, i) ∈ orderedIds.enum :=
        List.mk_mem_enum_iff_getElem?.mpr
          (by rw [← List.get?_eq_getElem?]; exact hget)
      have ho : ((i, p) : Nat × Nat) ∈ orderedIds.enum.map
          (fun p => (p.2, p.1)) :=
        List.mem_map.mpr ⟨(p, i), hmem, rfl⟩
      obtain ⟨it2, hit2, hid2, hso2⟩ := spec.1 (i, p) ho
      exact ⟨it2, mem_sortStable.mpr hit2, hid2, hso2⟩
    · intro it hit hnot
      refine mem_sortStable.mpr (spec.2 it hit ?_)
      rw [hmapfst]
      exact hnot

/-- Witness for C6: a reorder list with the foreign id 99 fails with
`ValidationError` and returns the items untouched; the same list without
the foreign id succeeds. -/
theorem C6_reorder_witness :
    TripManager.reorderTripItems [itemW0, itemW1, itemW2] 1 [12, 99] =
        (Except.error RepoError.validation, [itemW0, itemW1, itemW2]) ∧
      (TripManager.reorderTripItems [itemW0, itemW1, itemW2] 1
          [12, 10, 11]).1 = Except.ok () := by
  refine ⟨(C6_reorder_validation [itemW0, itemW1, itemW2] 1 [12, 99]
      (by decide)).1 (by decide),
    ((C6_reorder_validation [itemW0, itemW1, itemW2] 1 [12, 10, 11]
      (by decide)).2 (by decide)).1⟩

/-! ## Claim C9 — timestamps across the trip lifetime -/

theorem updateTrip_now (s : LSState) (i : Nat) (p : TripPatch) :
    (LocalStorageService.updateTrip s i p).2.now = s.now := by
  simp only [LocalStorageService.updateTrip]
  cases s.trips.find? (fun t => t.id == i) <;> rfl

theorem applyOp_now (s : LSState) (op : LSOp) : (applyOp s op).now = s.now := by
  cases op with
  | createTrip d => rfl
  | updateTrip i p => exact updateTrip_now s i p
  | deleteTrip i =>
      simp only [applyOp, LocalStorageService.deleteTrip]
      split <;> rfl
  | createTripItem d => exact updateTrip_now _ _ _
  | updateTripItem i p =>
      simp only [applyOp, LocalStorageService.updateTripItem]
      cases s.tripItems.find? (fun it => it.id == i) <;>
        simp [updateTrip_now]
  | deleteTripItem i =>
      simp only [applyOp, LocalStorageService.deleteTripItem]
      cases s.tripItems.find? (fun it => it.id == i) <;>
        simp [updateTrip_now]

theorem updateTrip_mem_trips (s : LSState) (i : Nat) (p : TripPatch) :
    ∀ t2 ∈ (LocalStorageService.updateTrip s i p).2.trips,
      t2 ∈ s.trips ∨ ∃ t ∈ s.trips, t2 = mergeTrip t p s.now := by
  simp only [LocalStorageService.updateTrip]
  cases s.trips.find? (fun t => t.id == i)
  · intro t2 h
    exact Or.inl h
  · intro t2 h
    rcases mem_updateFirst h with h2 | ⟨y, hy, rfl⟩
    · exact Or.inl h2
    · exact Or.inr ⟨y, hy, rfl⟩

theorem applyOp_trips_updated_le (s : LSState) (op : LSOp)
    (hinv : clockInv s) :
    ∀ t ∈ (applyOp s op).trips, t.updated_at ≤ s.now := by
  cases op with
  | createTrip d =>
      intro t ht
      rcases List.mem_append.mp ht with h | h
      · exact Nat.le_of_lt (hinv t h)
      · rcases List.mem_singleton.mp h with rfl
        exact Nat.le_refl _
  | updateTrip i p =>
      intro t ht
      rcases updateTrip_mem_trips s i p t ht with h | ⟨u, hu, rfl⟩
      · exact Nat.le_of_lt (hinv t h)
      · exact Nat.le_refl _
  | deleteTrip i =>
      intro t ht
      simp only [applyOp, LocalStorageService.deleteTrip] at ht
      split at ht
      · exact Nat.le_of_lt (hinv t (List.mem_filter.mp ht).1)
      · exact Nat.le_of_lt (hinv t ht)
  | createTripItem d =>
      intro t ht
      rcases updateTrip_mem_trips _ d.trip_id {} t ht with h | ⟨u, hu, rfl⟩
      · exact Nat.le_of_lt (hinv t h)
      · exact Nat.le_refl _
  | updateTripItem i p =>
      intro t ht
      simp only [applyOp, LocalStorageService.updateTripItem] at ht
      rcases hf : s.tripItems.find? (fun it => it.id == i) with _ | it <;>
        rw [hf] at ht
      · exact Nat.le_of_lt (hinv t ht)
      · rcases updateTrip_mem_trips _ _ {} t ht with h | ⟨u, hu, rfl⟩
        · exact Nat.le_of_lt (hinv t h)
        · exact Nat.le_refl _
  | deleteTripItem i =>
      intro t ht
      simp only [applyOp, LocalStorageService.deleteTripItem] at ht
      rcases hf : s.tripItems.find? (fun it => it.id == i) with _ | it <;>
        rw [hf] at ht
      · exact Nat.le_of_lt (hinv t ht)
      · rcases updateTrip_mem_trips _ _ {} t ht with h | ⟨u, hu, rfl⟩
        · exact Nat.le_of_lt (hinv t h)
        · exact Nat.le_refl _

theorem step_clockInv (s : LSState) (op : LSOp) (hinv : clockInv s) :
    clockInv (step s op) := by
  intro t ht
  have h1 : t.updated_at ≤ s.now := applyOp_trips_updated_le s op hinv t ht
  have h2 : (step s op).now = s.now + 1 := by
    simp only [step]
    rw [applyOp_now]
  omega

theorem updateTrip_track (s : LSState) (i : Nat) (p : TripPatch) (j : Nat)
    (t t2 : LSTrip) (hp : p.id = none ∧ p.created_at = none)
    (hinv : ∀ t3 ∈ s.trips, t3.updated_at < s.now)
    (hb : LocalStorageService.lookupTrip s j = some t)
    (ha : LocalStorageService.lookupTrip
      (LocalStorageService.updateTrip s i p).2 j = some t2) :
    t2.created_at = t.created_at ∧ t.updated_at ≤ t2.updated_at := by
  rcases hf : s.trips.find? (fun x => x.id == i) with _ | u
  · have hid : (LocalStorageService.updateTrip s i p).2 = s := by
      simp only [LocalStorageService.updateTrip, hf]
    rw [hid, hb] at ha
    cases ha
    exact ⟨rfl, Nat.le_refl _⟩
  · have hstate : (LocalStorageService.updateTrip s i p).2.trips =
        updateFirst (fun x => x.id == i) (fun x => mergeTrip x p s.now)
          s.trips := by
      simp only [LocalStorageService.updateTrip, hf]
    by_cases hij : j = i
    · subst hij
      have hut : u = t := by
        have := hf.symm.trans hb
        exact (Option.some.inj this)
      subst hut
      have hpu := List.find?_some hf
      have hres : (updateFirst (fun x => x.id == j)
          (fun x => mergeTrip x p s.now) s.trips).find?
            (fun x => x.id == j) = some (mergeTrip u p s.now) :=
        find?_updateFirst_same hf (by simpa [mergeTrip, hp.1] using hpu)
      have ha2 : LocalStorageService.lookupTrip
          (LocalStorageService.updateTrip s j p).2 j =
            some (mergeTrip u p s.now) := by
        simp only [LocalStorageService.lookupTrip, hstate]
        exact hres
      rw [ha2] at ha
      cases ha
      refine ⟨by simp [mergeTrip, hp.2], ?_⟩
      exact Nat.le_of_lt (hinv u (List.mem_of_find?_eq_some hb))
    · have hsame : LocalStorageService.lookupTrip
          (LocalStorageService.updateTrip s i p).2 j =
            LocalStorageService.lookupTrip s j := by
        simp only [LocalStorageService.lookupTrip, hstate]
        exact find?_updateFirst_other
          (fun x hx => by
            have hxi : x.id = i := by simpa using hx
            have : ¬ x.id = j := by
              rw [hxi]
              exact fun h => hij h.symm
            simpa using this)
          (fun x => by simp [mergeTrip, hp.1]) s.trips
      rw [hsame, hb] at ha
      cases ha
      exact ⟨rfl, Nat.le_refl _⟩

theorem step_track (s : LSState) (op : LSOp) (i : Nat) (t t2 : LSTrip)
    (hinv : clockInv s) (hgood : goodOp op = true)
    (hb : LocalStorageService.lookupTrip s i = some t)
    (ha : LocalStorageService.lookupTrip (step s op) i = some t2) :
    t2.created_at = t.created_at ∧ t.updated_at ≤ t2.updated_at := by
  have ha2 : LocalStorageService.lookupTrip (applyOp s op) i = some t2 := ha
  clear ha
  cases op with
  | createTrip d =>
      have hb2 : s.trips.find? (fun x => x.id == i) = some t := hb
      have ha3 : ((s.trips ++
          [(LocalStorageService.createTrip s d).1]).find?
            (fun x => x.id == i)) = some t2 := ha2
      rw [find?_append_left hb2] at ha3
      cases ha3
      exact ⟨rfl, Nat.le_refl _⟩
  | updateTrip j p =>
      have hp : p.id = none ∧ p.created_at = none := by
        simp only [goodOp, Bool.and_eq_true, Option.isNone_iff_eq_none]
          at hgood
        exact hgood
      exact updateTrip_track s j p i t t2 hp hinv hb ha2
  | deleteTrip j =>
      simp only [applyOp, LocalStorageService.deleteTrip] at ha2
      split at ha2
      · by_cases hij : i = j
        · subst hij
          have : ((s.trips.filter (fun x => x.id != i)).find?
              (fun x => x.id == i)) = none :=
            find?_filter_none
              (fun x hx => by
                have : x.id = i := by simpa using hx
                simp [this]) s.trips
          have ha3 : ((s.trips.filter (fun x => x.id != i)).find?
              (fun x => x.id == i)) = some t2 := ha2
          rw [this] at ha3
          cases ha3
        · have ha3 : ((s.trips.filter (fun x => x.id != j)).find?
              (fun x => x.id == i)) = some t2 := ha2
          rw [find?_filter_of_imp
            (fun x hx => by
              have : x.id = i := by simpa using hx
              simp [this, hij]) s.trips] at ha3
          have hb2 : s.trips.find? (fun x => x.id == i) = some t := hb
          rw [hb2] at ha3
          cases ha3
          exact ⟨rfl, Nat.le_refl _⟩
      · have : some t = some t2 := hb.symm.trans ha2
        cases this
        exact ⟨rfl, Nat.le_refl _⟩
  | createTripItem d =>
      exact updateTrip_track
        ⟨s.trips, s.tripItems ++ [(LocalStorageService.createTripItem s d).1], s.now, s.fresh + 1⟩
        d.trip_id {} i t t2 ⟨rfl, rfl⟩ hinv hb ha2
  | updateTripItem iid p =>
      simp only [applyOp, LocalStorageService.updateTripItem] at ha2
      rcases hf : s.tripItems.find? (fun it => it.id == iid) with _ | it <;>
        rw [hf] at ha2
      · have : some t = some t2 := hb.symm.trans ha2
        cases this
        exact ⟨rfl, Nat.le_refl _⟩
      · exact updateTrip_track
          ⟨s.trips, updateFirst (fun x => x.id == iid) (fun _ => mergeItem it p s.now) s.tripItems, s.now, s.fresh⟩
          (mergeItem it p s.now).trip_id {} i t t2 ⟨rfl, rfl⟩ hinv hb ha2
  | deleteTripItem iid =>
      simp only [applyOp, LocalStorageService.deleteTripItem] at ha2
      rcases hf : s.tripItems.find? (fun it => it.id == iid) with _ | it <;>
        rw [hf] at ha2
      · have : some t = some t2 := hb.symm.trans ha2
        cases this
        exact ⟨rfl, Nat.le_refl _⟩
      · exact updateTrip_track
          ⟨s.trips, s.tripItems.filter (fun x => x.id != iid), s.now, s.fresh⟩
          it.trip_id {} i t t2 ⟨rfl, rfl⟩ hinv hb ha2

theorem run_track :
    ∀ (ops : List LSOp) (s : LSState) (i : Nat) (t t2 : LSTrip),
      clockInv s → (∀ op ∈ ops, goodOp op = true) → aliveAll s i ops →
      LocalStorageService.lookupTrip s i = some t →
      LocalStorageService.lookupTrip (run s ops) i = some t2 →
      t2.created_at = t.created_at ∧ t.updated_at ≤ t2.updated_at
  | [], s, i, t, t2, _, _, _, hb, ha => by
      have h := hb.symm.trans ha
      cases h
      exact ⟨rfl, Nat.le_refl _⟩
  | op :: rest, s, i, t, t2, hinv, hgood, halive, hb, ha => by
      obtain ⟨hsome, halive2⟩ := halive
      obtain ⟨t1, ht1⟩ := Option.isSome_iff_exists.mp hsome
      have hstep := step_track s op i t t1 hinv
        (hgood op (List.mem_cons_self _ _)) hb ht1
      have hrest := run_track rest (step s op) i t1 t2
        (step_clockInv s op hinv)
        (fun o ho => hgood o (List.mem_cons_of_mem _ ho)) halive2 ht1 ha
      exact ⟨hrest.1.trans hstep.1, Nat.le_trans hstep.2 hrest.2⟩

/-- C9 amended: across every run of repository operations whose
trip-update partials carry neither an `id` nor a `created_at` key, a
surviving Trip's `updatedAt` is monotonically non-decreasing and its
`createdAt` never changes; and creating, updating (with no `trip_id` in
the patch) or deleting a child TripItem refreshes the parent Trip's
`updatedAt` to the operation's timestamp.  (A partial carrying
`created_at` does overwrite the stored value — see the
counterexample.) -/
theorem C9_amended_timestamps (s : LSState) (hinv : clockInv s) :
    (∀ (ops : List LSOp) (i : Nat) (t t2 : LSTrip),
        (∀ op ∈ ops, goodOp op = true) → aliveAll s i ops →
        LocalStorageService.lookupTrip s i = some t →
        LocalStorageService.lookupTrip (run s ops) i = some t2 →
        t2.created_at = t.created_at ∧
          t.updated_at ≤ t2.updated_at) ∧
      (∀ (d : ItemDraft) (t : LSTrip),
        LocalStorageService.lookupTrip s d.trip_id = some t →
        LocalStorageService.lookupTrip
            (applyOp s (LSOp.createTripItem d)) d.trip_id =
          some { t with updated_at := s.now }) ∧
      (∀ (iid : Nat) (p : ItemPatch) (it : LSItem) (t : LSTrip),
        p.trip_id = none →
        LocalStorageService.lookupItem s iid = some it →
        LocalStorageService.lookupTrip s it.trip_id = some t →
        LocalStorageService.lookupTrip
            (applyOp s (LSOp.updateTripItem iid p)) it.trip_id =
          some { t with updated_at := s.now }) ∧
      (∀ (iid : Nat) (it : LSItem) (t : LSTrip),
        LocalStorageService.lookupItem s iid = some it →
        LocalStorageService.lookupTrip s it.trip_id = some t →
        LocalStorageService.lookupTrip
            (applyOp s (LSOp.deleteTripItem iid)) it.trip_id =
          some { t with updated_at := s.now }) := by
  refine ⟨?_, ?_, ?_, ?_⟩
  · intro ops i t t2 hg hal hb ha
    exact run_track ops s i t t2 hinv hg hal hb ha
  · intro d t hb
    have h := updateTrip_lookup_self
      ⟨s.trips, s.tripItems ++ [(LocalStorageService.createTripItem s d).1], s.now, s.fresh + 1⟩
      d.trip_id {} t rfl hb
    rw [mergeTrip_empty] at h
    exact h
  · intro iid p it t hp hit hb
    have hfind : s.tripItems.find? (fun x => x.id == iid) = some it := hit
    have htid : (mergeItem it p s.now).trip_id = it.trip_id := by
      simp [mergeItem, hp]
    have h := updateTrip_lookup_self
      ⟨s.trips, updateFirst (fun x => x.id == iid) (fun _ => mergeItem it p s.now) s.tripItems, s.now, s.fresh⟩
      (mergeItem it p s.now).trip_id {} t rfl (by rw [htid]; exact hb)
    rw [mergeTrip_empty] at h
    simp only [applyOp, LocalStorageService.updateTripItem, hfind]
    rw [← htid]
    exact h
  · intro iid it t hit hb
    have hfind : s.tripItems.find? (fun x => x.id == iid) = some it := hit
    have h := updateTrip_lookup_self
      ⟨s.trips, s.tripItems.filter (fun x => x.id != iid), s.now, s.fresh⟩
      it.trip_id {} t rfl hb
    rw [mergeTrip_empty] at h
    simp only [applyOp, LocalStorageService.deleteTripItem, hfind]
    exact h

/-- Witness for the amended C9: one empty-patch update on the concrete
store keeps `createdAt` and does not decrease `updatedAt`. -/
theorem C9_amended_witness :
    tripWtouched.created_at = tripW.created_at ∧
      tripW.updated_at ≤ tripWtouched.updated_at :=
  (C9_amended_timestamps sW
      (by intro t ht; rcases List.mem_singleton.mp ht with rfl; decide)).1
    [LSOp.updateTrip 1 {}] 1 tripW tripWtouched (by decide)
    ⟨by decide, trivial⟩ (by decide) (by decide)

/-- C9 counterexample: a repository `updateTrip` whose partial carries a
`created_at` key changes the stored trip's `createdAt` from 0 to 99 —
refuting "createdAt never changes" over arbitrary repository
operations. -/
theorem C9_counterexample :
    (LocalStorageService.lookupTrip sW 1).map (fun t => t.created_at) =
        some 0 ∧
      (LocalStorageService.lookupTrip
          (applyOp sW (LSOp.updateTrip 1 { created_at := some 99 })) 1).map
        (fun t => t.created_at) = some 99 := by
  decide

end Itinerary
